import Mathlib

/-!
Verification of the Class-SNA network-analysis core.

Shallow embedding of the analysis pipeline of the repository:
`src/lib/analyzer.ts` (graph building, centrality assembly, seeded community
detection), `src/lib/parser.ts` (relationship normalization and edge merging)
and the identity-resolution helpers of `src/components/dashboard/Dashboard.tsx`
(`normalizeStudentNameKey`, `buildStableStudentId`, `resolveStudentIds`).

JavaScript 32-bit integer arithmetic is modelled over `Nat` modulo `2 ^ 32`;
JavaScript numbers carried by edges are modelled as `Rat`; fallible
computations are modelled with `Option`/`Except`.
-/

namespace ClassSNA

/-- Modulus of JavaScript 32-bit integer arithmetic. -/
def U32 : Nat := 4294967296

/-- FNV-1a style hash loop shared by `buildStableStudentId` (Dashboard.tsx,
lines 52-59) and `createSeededRng` (analyzer.ts, lines 9-15):
`hash ^= char.charCodeAt(0); hash = Math.imul(hash, 16777619)` starting from
`2166136261`, tracked as the unsigned 32-bit value (`hash >>> 0`).  The
iteration is over the characters of the string; `charCodeAt(0)` agrees with
the code point for all basic-plane characters. -/
def fnv1a (s : String) : Nat :=
  s.data.foldl (fun h c => ((h ^^^ c.toNat) * 16777619) % U32) 2166136261

/-- Digit characters used by JavaScript `Number.prototype.toString(36)`:
`0`-`9` then lowercase `a`-`z`. -/
def digit36 (n : Nat) : Char :=
  if n < 10 then Char.ofNat (48 + n) else Char.ofNat (87 + n)

/-- Fuel-driven base-36 digit accumulator; the fuel is always sufficient
because a number `n` has at most `n` base-36 digits. -/
def toBase36Aux : Nat → Nat → List Char → List Char
  | 0, _, acc => acc
  | fuel + 1, n, acc =>
    if n = 0 then acc else toBase36Aux fuel (n / 36) (digit36 (n % 36) :: acc)

/-- JavaScript `(h >>> 0).toString(36)` for an unsigned 32-bit value. -/
def toBase36 (n : Nat) : String :=
  if n = 0 then "0" else String.mk (toBase36Aux (n + 1) n [])

/-- Collapse every maximal run of whitespace to a single space, tracking
whether the previous character was whitespace. -/
def collapseSpacesAux : Bool → List Char → List Char
  | _, [] => []
  | prevWs, c :: rest =>
    if c.isWhitespace then
      if prevWs then collapseSpacesAux true rest
      else ' ' :: collapseSpacesAux true rest
    else c :: collapseSpacesAux false rest

/-- Model of JavaScript `str.replace(/\s+/g, " ")`. -/
def collapseSpaces (l : List Char) : List Char := collapseSpacesAux false l

/-- Model of JavaScript `String.prototype.trim`: strip leading and trailing
whitespace. -/
def trimChars (l : List Char) : List Char :=
  ((l.dropWhile Char.isWhitespace).reverse.dropWhile Char.isWhitespace).reverse

/-- Dashboard.tsx, lines 48-50: `name.trim().replace(/\s+/g, " ").toLowerCase()`.
Lowercasing is modelled with `Char.toLower` (which agrees with JavaScript on
ASCII). -/
def normalizeStudentNameKey (name : String) : String :=
  String.mk ((collapseSpaces (trimChars name.data)).map Char.toLower)

/-- Dashboard.tsx, lines 52-59: stable student id `STU_` followed by the
unsigned FNV-1a hash of the name rendered in base 36. -/
def buildStableStudentId (name : String) : String :=
  "STU_" ++ toBase36 (fnv1a name)

/-- Input node record (`@/types/network` `Node` before metrics are attached). -/
structure NodeIn where
  id : String
  name : String
  label : String
  group : Int
deriving Repr, DecidableEq

/-- Dashboard.tsx, lines 62-65: the `previousIdByName` map is populated by a
`forEach` of `Map.set`, so a later node with the same normalized key
overwrites an earlier one; `Map.get` therefore returns the id of the last
matching previous node. -/
def lookupPrev (previousNodes : List NodeIn) (key : String) : Option String :=
  (previousNodes.reverse.find? (fun n => normalizeStudentNameKey n.name = key)).map (·.id)

/-- Dashboard.tsx, lines 75-77: the `while (usedIds.has(candidate_suffix))`
loop, starting at suffix 2.  The fuel (one more than the number of used ids)
is always sufficient, so the fuel-exhausted branch is unreachable. -/
def pickSuffix (used : List String) (candidate : String) : Nat → Nat → String
  | suffix, 0 => candidate ++ "_" ++ toString suffix
  | suffix, fuel + 1 =>
    if used.contains (candidate ++ "_" ++ toString suffix) then
      pickSuffix used candidate (suffix + 1) fuel
    else candidate ++ "_" ++ toString suffix

/-- State threaded through the `canonicalNames.forEach` of
`resolveStudentIds`: the `usedIds` set (kept as a list; only membership is
ever queried) and the `nameToId` map (kept in insertion order). -/
structure ResolveState where
  usedIds : List String
  nameToId : List (String × String)
deriving Repr, DecidableEq

/-- Dashboard.tsx, lines 69-82: one iteration of the resolution loop.
A previously known key reuses its prior id, otherwise the stable hash id is
used; an id already taken inside this batch gets a `_2`, `_3`, ... suffix. -/
def resolveStep (previousNodes : List NodeIn) (st : ResolveState) (name : String) :
    ResolveState :=
  let key := normalizeStudentNameKey name
  let candidate := (lookupPrev previousNodes key).getD (buildStableStudentId name)
  let finalId :=
    if st.usedIds.contains candidate then
      pickSuffix st.usedIds candidate 2 (st.usedIds.length + 1)
    else candidate
  { usedIds := st.usedIds ++ [finalId]
    nameToId := st.nameToId ++ [(name, finalId)] }

/-- The candidate id computed for a name inside the resolution loop
(Dashboard.tsx, line 72): the reused previous id when the normalized key is
known, otherwise the stable hash id. -/
def candFn (previousNodes : List NodeIn) (name : String) : String :=
  (lookupPrev previousNodes (normalizeStudentNameKey name)).getD (buildStableStudentId name)

/-- Dashboard.tsx, lines 61-85: `resolveStudentIds(canonicalNames, previousNodes)`.
The optional `previousNodes` parameter is modelled by an explicit list
(`[]` for absent). -/
def resolveStudentIds (canonicalNames : List String) (previousNodes : List NodeIn) :
    List (String × String) :=
  (canonicalNames.foldl (resolveStep previousNodes) ⟨[], []⟩).nameToId

/-- `nameToId.get(name)`: the mapping is a JavaScript `Map`, so the last
binding for a name wins. -/
def resolvedId (mapping : List (String × String)) (name : String) : Option String :=
  (mapping.reverse.find? (fun p => p.1 = name)).map (·.2)

/-- Dashboard.tsx, lines 128-136: node records built from the resolution,
falling back to the stable hash id if the name is missing from the map. -/
def nodesFromResolution (canonicalNames : List String) (mapping : List (String × String)) :
    List NodeIn :=
  canonicalNames.map (fun name =>
    { id := (resolvedId mapping name).getD (buildStableStudentId name)
      name := name
      label := name
      group := 1 })

/-- Edge record (`@/types/network` `Edge`): JavaScript number weights are
modelled as rationals. -/
structure Edge where
  source : String
  target : String
  type : String
  weight : Rat
deriving Repr, DecidableEq

/-- Raw relationship tuple as returned by the oracle, before normalization
(parser.ts, lines 195-215).  `fromName`/`toName` model `String(row.from ?? "")`
with `none` for an absent (`undefined`/`null`) field; `typeName` likewise for
`row.type ?? "general"`; `weightNum` models the result of `Number(row.weight)`,
with `none` standing for a non-finite result (`NaN`, `Infinity`), so an absent
weight (`Number(undefined) = NaN`) is `none`. -/
structure RawRel where
  fromName : Option String
  toName : Option String
  typeName : Option String
  weightNum : Option Rat
deriving Repr, DecidableEq

/-- parser.ts, line 205: `String(row.from ?? "").trim()`. -/
def relSource (r : RawRel) : String := String.mk (trimChars (r.fromName.getD "").data)

/-- parser.ts, line 206: `String(row.to ?? "").trim()`. -/
def relTarget (r : RawRel) : String := String.mk (trimChars (r.toName.getD "").data)

/-- parser.ts, line 207: `String(row.type ?? "general").trim()` (before the
`|| "general"` fallback for a blank result). -/
def relTypeRaw (r : RawRel) : String := String.mk (trimChars (r.typeName.getD "general").data)

/-- parser.ts, lines 205-213 (the `.map` body of `processWithGemini`, identical
in Dashboard.tsx lines 105-112): trim the endpoint names, default the type to
`"general"` when absent or blank, default the weight to 1 unless it is a
finite number greater than 0, and drop the tuple when an endpoint is empty
after trimming or when both endpoints coincide. -/
def normalizeRel (r : RawRel) : Option Edge :=
  let source := relSource r
  let target := relTarget r
  let type := if relTypeRaw r = "" then "general" else relTypeRaw r
  let weight : Rat :=
    match r.weightNum with
    | some w => if 0 < w then w else 1
    | none => 1
  if source = "" ∨ target = "" ∨ source = target then none
  else some { source := source, target := target, type := type, weight := weight }

/-- The `(source, target, type)` triple of an edge. -/
def edgeTriple (e : Edge) : String × String × String := (e.source, e.target, e.type)

/-- Both merge keys of parser.ts are string renderings of the
`(source, target, type)` triple; the merge machinery is parameterized by the
rendering `tkey`. -/
def edgeKey (tkey : String × String × String → String) (e : Edge) : String :=
  tkey (edgeTriple e)

/-- One `edgeMap` update: if an edge with the same key already exists, its
weight is increased in place, otherwise the new edge is appended.  A
JavaScript `Map` has at most one entry per key, so the first match is the
only match. -/
def upsertEdge (tkey : String × String × String → String) : List Edge → Edge → List Edge
  | [], r => [r]
  | e :: rest, r =>
    if edgeKey tkey e = edgeKey tkey r then { e with weight := e.weight + r.weight } :: rest
    else e :: upsertEdge tkey rest r

/-- The duplicate-merging loop over raw edges followed by
`Array.from(edgeMap.values())` (parser.ts lines 139-150 for the CSV path,
lines 239-259 for the Gemini path): entries are kept in first-insertion
order, and weights of key-equal tuples are summed. -/
def mergeEdges (tkey : String × String × String → String) (raws : List Edge) : List Edge :=
  raws.foldl (upsertEdge tkey) []

/-- parser.ts, line 141: CSV-path merge key `source-target-type`. -/
def csvKey (t : String × String × String) : String := t.1 ++ "-" ++ t.2.1 ++ "-" ++ t.2.2

/-- parser.ts, line 245: Gemini-path merge key `sourceId::targetId::type`. -/
def geminiKey (t : String × String × String) : String := t.1 ++ "::" ++ t.2.1 ++ "::" ++ t.2.2

/-- parser.ts, lines 139-150: the CSV-path edge merge. -/
def mergeEdgesCsv (raws : List Edge) : List Edge := mergeEdges csvKey raws

/-- parser.ts, lines 239-259: the Gemini-path edge merge (operating on edges
whose endpoints have already been rewritten to resolved ids). -/
def mergeEdgesGemini (raws : List Edge) : List Edge := mergeEdges geminiKey raws

/-- Total weight carried by the edges of `l` whose key is `κ`. -/
def weightAtKey (tkey : String × String × String → String) (l : List Edge) (κ : String) : Rat :=
  ((l.filter (fun e => edgeKey tkey e = κ)).map (fun e => e.weight)).sum

/-- Total weight carried by the edges of `l` whose `(source, target, type)`
triple is `t`. -/
def weightAtTriple (l : List Edge) (t : String × String × String) : Rat :=
  ((l.filter (fun e => edgeTriple e = t)).map (fun e => e.weight)).sum

/-- analyzer.ts, lines 32-36: nodes are added to the graph in order,
skipping any node whose id is already present, so the graph keeps the first
occurrence of each id.  `seen` is the set of ids already in the graph. -/
def dedupByIdAux (seen : List String) : List NodeIn → List NodeIn
  | [] => []
  | n :: rest =>
    if seen.contains n.id then dedupByIdAux seen rest
    else n :: dedupByIdAux (n.id :: seen) rest

/-- The node list of the built graph: input nodes with duplicate ids removed,
first occurrence kept (analyzer.ts, lines 32-36). -/
def dedupNodesById (nodes : List NodeIn) : List NodeIn := dedupByIdAux [] nodes

/-- analyzer.ts, lines 38-42: an edge is added to the graph only when both of
its endpoints are nodes of the graph. -/
def filterEdges (graphNodes : List NodeIn) (edges : List Edge) : List Edge :=
  edges.filter (fun e =>
    graphNodes.any (fun n => n.id = e.source) && graphNodes.any (fun n => n.id = e.target))

/-- The graph value built by analyzer.ts lines 30-42:
`new Graph({ type: "directed", multi: true })` populated with the deduplicated
nodes and the endpoint-filtered edges. -/
structure SGraph where
  directed : Bool
  multi : Bool
  nodes : List NodeIn
  edges : List Edge
deriving Repr, DecidableEq

/-- analyzer.ts, lines 30-42: build the directed multigraph. -/
def buildGraph (nodes : List NodeIn) (edges : List Edge) : SGraph :=
  { directed := true
    multi := true
    nodes := dedupNodesById nodes
    edges := filterEdges (dedupNodesById nodes) edges }

/-- graphology `graph.copy()` (analyzer.ts, line 80): a copy of the instance
with the same type flags and the same content. -/
def copyGraph (g : SGraph) : SGraph := g

/-- The graph value handed to the louvain library at analyzer.ts line 80. -/
def louvainInput (nodes : List NodeIn) (edges : List Edge) : SGraph :=
  copyGraph (buildGraph nodes edges)

/-- The unordered endpoint pair of an edge, smaller endpoint first. -/
def pairOf (e : Edge) : String × String :=
  if e.source ≤ e.target then (e.source, e.target) else (e.target, e.source)

/-- Add one edge weight to an aggregated unordered-pair list. -/
def upsertPair : List (String × String × Rat) → String × String → Rat →
    List (String × String × Rat)
  | [], p, w => [(p.1, p.2, w)]
  | q :: rest, p, w =>
    if (q.1, q.2.1) = p then (q.1, q.2.1, q.2.2 + w) :: rest
    else q :: upsertPair rest p w

/-- Written from the specification (section 4.5), for comparison with the
code: the undirected projection of a graph, in which parallel edges and both
directions between the same unordered pair of nodes contribute to a single
aggregated edge weight. -/
def undirectedProjectionSpec (g : SGraph) : List (String × String × Rat) :=
  g.edges.foldl (fun acc e => upsertPair acc (pairOf e) e.weight) []

/-- Outcome of each guarded metric computation of analyzer.ts lines 48-90.
The centrality and community algorithms themselves live in the external
graphology libraries, so each computation is modelled by an `Except` value:
`.ok f` when the library call returns values `f` for the node ids, `.error ()`
when it throws. -/
structure MetricOutcomes where
  inDeg : Except Unit (String → Rat)
  outDeg : Except Unit (String → Rat)
  betw : Except Unit (String → Rat)
  clos : Except Unit (String → Rat)
  eig : Except Unit (String → Rat)
  comm : Except Unit (String → Nat)

/-- Node record with metrics attached (analyzer.ts, lines 93-104). -/
structure NodeOut where
  id : String
  name : String
  label : String
  group : Int
  inDegree : Rat
  outDegree : Rat
  betweenness : Rat
  closeness : Rat
  eigenvector : Rat
  community : Nat
deriving Repr, DecidableEq

/-- JavaScript `c || 1` on a community number: `0` (and an absent value) is
falsy and becomes `1` (analyzer.ts, lines 86 and 103). -/
def jsOrOne (c : Nat) : Nat := if c = 0 then 1 else c

/-- analyzer.ts, lines 48-104: one enriched node record.  The metric guards
follow the try/catch structure: in-degree and out-degree live in a single
try block (lines 48-51), so out-degree values are only present when the
in-degree computation also succeeded; each absent attribute defaults through
`|| 0` (or `|| 1` for community). -/
def assembleNode (o : MetricOutcomes) (n : NodeIn) : NodeOut :=
  { id := n.id
    name := n.name
    label := n.label
    group := n.group
    inDegree := match o.inDeg with | .ok f => f n.id | .error _ => 0
    outDegree :=
      match o.inDeg, o.outDeg with | .ok _, .ok g => g n.id | _, _ => 0
    betweenness := match o.betw with | .ok f => f n.id | .error _ => 0
    closeness := match o.clos with | .ok f => f n.id | .error _ => 0
    eigenvector := match o.eig with | .ok f => f n.id | .error _ => 0
    community := match o.comm with | .ok c => jsOrOne (c n.id) | .error _ => 1 }

/-- The value returned by `analyzeNetwork` (analyzer.ts, lines 109-114),
together with the internal graph content. -/
structure AnalyzeResult where
  graphNodes : List NodeIn
  graphEdges : List Edge
  nodes : List NodeOut
  edges : List Edge
  isolatedStudents : List NodeOut
deriving Repr, DecidableEq

/-- analyzer.ts, lines 28-115: build the graph, attach the metric outcomes to
the node records, compute the isolated students (`(n.inDegree || 0) === 0`,
line 107) and return; the returned `edges` field is the untouched input
parameter (line 112). -/
def analyzeNetwork (o : MetricOutcomes) (nodes : List NodeIn) (edges : List Edge) :
    AnalyzeResult :=
  let g := buildGraph nodes edges
  let enriched := g.nodes.map (assembleNode o)
  { graphNodes := g.nodes
    graphEdges := g.edges
    nodes := enriched
    edges := edges
    isolatedStudents := enriched.filter (fun n => n.inDegree = 0) }

/-- Sort a list of strings ascending, as JavaScript `Array.prototype.sort()`
does for the string arrays of analyzer.ts lines 70-76. -/
def sortStrings (l : List String) : List String := l.insertionSort (· ≤ ·)

/-- Rendering of an edge weight inside a template literal
(`${edge.weight}`, analyzer.ts line 74).  JavaScript number formatting is
modelled by the numerator/denominator rendering of the rational; the
community-determinism results only use that it is a function of the weight. -/
def ratRepr (q : Rat) : String := toString q.num ++ "/" ++ toString q.den

/-- analyzer.ts, line 74: `source>target:type:weight`. -/
def serializeEdge (e : Edge) : String :=
  e.source ++ ">" ++ e.target ++ ":" ++ e.type ++ ":" ++ ratRepr e.weight

/-- analyzer.ts, lines 70-76: the rng seed source, built from the sorted node
ids of the input node list joined by `|`, then `::`, then the sorted
serializations of the input edge list joined by `|`. -/
def seedSource (nodes : List NodeIn) (edges : List Edge) : String :=
  String.intercalate "|" (sortStrings (nodes.map (fun n => n.id))) ++ "::" ++
    String.intercalate "|" (sortStrings (edges.map serializeEdge))

/-- analyzer.ts, lines 9-15: the initial xorshift state of `createSeededRng`:
the FNV-1a hash of the seed string, replaced by 1 when it is 0. -/
def createSeededRngSeed (seedStr : String) : Nat :=
  let h := fnv1a seedStr
  if h = 0 then 1 else h

/-- analyzer.ts, lines 17-22: one step of the xorshift generator returned by
`createSeededRng`, on the unsigned 32-bit state:
`seed ^= seed << 13; seed ^= seed >>> 17; seed ^= seed << 5`. -/
def xorshift32 (s : Nat) : Nat :=
  let a := (s ^^^ (s <<< 13)) % U32
  let b := a ^^^ (a >>> 17)
  (b ^^^ (b <<< 5)) % U32

/-- The order-insensitive content of the graph handed to louvain: the sorted
ids of its nodes and the sorted serializations of its edges. -/
def louvainContent (nodes : List NodeIn) (edges : List Edge) : List String × List String :=
  ((sortStrings ((louvainInput nodes edges).nodes.map (fun n => n.id))),
    (sortStrings ((louvainInput nodes edges).edges.map serializeEdge)))

/-- Modelled from the spec: the louvain implementation
(`graphology-communities-louvain`) is an external library, not part of this
repository.  Per the specification's determinism contract (sections 4.5 and
8), its partition depends only on the content of the graph it is given and on
the seeded random generator, so the community-detection stage of
analyzer.ts lines 69-87 is modelled as an arbitrary implementation function
applied to the order-canonicalized content of `graph.copy()` and to the
deterministic rng state derived from the seed source. -/
def communityStage (impl : List String × List String → Nat → String → Nat)
    (nodes : List NodeIn) (edges : List Edge) : String → Nat :=
  impl (louvainContent nodes edges) (createSeededRngSeed (seedSource nodes edges))

/-! ### Edge-merge lemmas -/

theorem edgeKey_setWeight (tkey : String × String × String → String) (e : Edge) (w : Rat) :
    edgeKey tkey { e with weight := w } = edgeKey tkey e := rfl

theorem weightAtKey_nil (tkey : String × String × String → String) (κ : String) :
    weightAtKey tkey [] κ = 0 := rfl

theorem weightAtKey_cons (tkey : String × String × String → String) (e : Edge)
    (l : List Edge) (κ : String) :
    weightAtKey tkey (e :: l) κ =
      (if edgeKey tkey e = κ then e.weight else 0) + weightAtKey tkey l κ := by
  by_cases h : edgeKey tkey e = κ <;> simp [weightAtKey, h]

theorem weightAtKey_upsert (tkey : String × String × String → String) (l : List Edge)
    (r : Edge) (κ : String) :
    weightAtKey tkey (upsertEdge tkey l r) κ =
      weightAtKey tkey l κ + (if edgeKey tkey r = κ then r.weight else 0) := by
  induction l with
  | nil =>
    by_cases h : edgeKey tkey r = κ <;>
      simp [upsertEdge, weightAtKey_cons, weightAtKey_nil, h]
  | cons e rest ih =>
    by_cases h : edgeKey tkey e = edgeKey tkey r
    · rw [upsertEdge, if_pos h, weightAtKey_cons, weightAtKey_cons, edgeKey_setWeight]
      by_cases hκ : edgeKey tkey e = κ
      · rw [if_pos hκ, if_pos hκ, if_pos (h ▸ hκ)]
        ring
      · rw [if_neg hκ, if_neg hκ, if_neg (h ▸ hκ)]
        ring
    · rw [upsertEdge, if_neg h, weightAtKey_cons, weightAtKey_cons, ih]
      ring

theorem weightAtKey_foldl_upsert (tkey : String × String × String → String)
    (raws : List Edge) :
    ∀ (acc : List Edge) (κ : String),
      weightAtKey tkey (raws.foldl (upsertEdge tkey) acc) κ =
        weightAtKey tkey acc κ + weightAtKey tkey raws κ := by
  induction raws with
  | nil => intro acc κ; simp [weightAtKey_nil]
  | cons r rest ih =>
    intro acc κ
    rw [List.foldl_cons, ih, weightAtKey_upsert, weightAtKey_cons]
    ring

theorem weightAtKey_mergeEdges (tkey : String × String × String → String)
    (raws : List Edge) (κ : String) :
    weightAtKey tkey (mergeEdges tkey raws) κ = weightAtKey tkey raws κ := by
  rw [mergeEdges, weightAtKey_foldl_upsert, weightAtKey_nil, zero_add]

theorem keys_upsert_of_mem (tkey : String × String × String → String) (l : List Edge)
    (r : Edge) (h : edgeKey tkey r ∈ l.map (edgeKey tkey)) :
    (upsertEdge tkey l r).map (edgeKey tkey) = l.map (edgeKey tkey) := by
  induction l with
  | nil => simp at h
  | cons e rest ih =>
    by_cases he : edgeKey tkey e = edgeKey tkey r
    · rw [upsertEdge, if_pos he, List.map_cons, List.map_cons, edgeKey_setWeight]
    · have hrest : edgeKey tkey r ∈ rest.map (edgeKey tkey) := by
        rcases List.mem_map.mp h with ⟨x, hx, hxe⟩
        rcases List.mem_cons.mp hx with hx | hx
        · exact absurd (hx ▸ hxe) he
        · exact List.mem_map.mpr ⟨x, hx, hxe⟩
      rw [upsertEdge, if_neg he, List.map_cons, List.map_cons, ih hrest]

theorem keys_upsert_of_not_mem (tkey : String × String × String → String) (l : List Edge)
    (r : Edge) (h : edgeKey tkey r ∉ l.map (edgeKey tkey)) :
    (upsertEdge tkey l r).map (edgeKey tkey) = l.map (edgeKey tkey) ++ [edgeKey tkey r] := by
  induction l with
  | nil => simp [upsertEdge]
  | cons e rest ih =>
    have he : edgeKey tkey e ≠ edgeKey tkey r := by
      intro hc
      exact h (List.mem_map.mpr ⟨e, List.mem_cons_self e rest, hc⟩)
    have hrest : edgeKey tkey r ∉ rest.map (edgeKey tkey) := fun hc => by
      rcases List.mem_map.mp hc with ⟨x, hx, hxe⟩
      exact h (List.mem_map.mpr ⟨x, List.mem_cons_of_mem e hx, hxe⟩)
    rw [upsertEdge, if_neg he, List.map_cons, List.map_cons, ih hrest, List.cons_append]

theorem keys_foldl_upsert_nodup (tkey : String × String × String → String)
    (raws : List Edge) :
    ∀ acc : List Edge, (acc.map (edgeKey tkey)).Nodup →
      ((raws.foldl (upsertEdge tkey) acc).map (edgeKey tkey)).Nodup := by
  induction raws with
  | nil => intro acc h; simpa using h
  | cons r rest ih =>
    intro acc h
    rw [List.foldl_cons]
    by_cases hm : edgeKey tkey r ∈ acc.map (edgeKey tkey)
    · exact ih _ (by rw [keys_upsert_of_mem tkey acc r hm]; exact h)
    · refine ih _ ?_
      rw [keys_upsert_of_not_mem tkey acc r hm]
      simp [List.nodup_append, h, hm]

theorem keys_mergeEdges_nodup (tkey : String × String × String → String)
    (raws : List Edge) : ((mergeEdges tkey raws).map (edgeKey tkey)).Nodup :=
  keys_foldl_upsert_nodup tkey raws [] (by simp)

theorem mem_upsert_triple (tkey : String × String × String → String) (l : List Edge)
    (r e : Edge) (h : e ∈ upsertEdge tkey l r) :
    (∃ x ∈ l, edgeTriple x = edgeTriple e) ∨ edgeTriple r = edgeTriple e := by
  induction l with
  | nil =>
    simp [upsertEdge] at h
    exact Or.inr (by rw [h])
  | cons f rest ih =>
    by_cases hf : edgeKey tkey f = edgeKey tkey r
    · rw [upsertEdge, if_pos hf] at h
      rcases List.mem_cons.mp h with h | h
      · exact Or.inl ⟨f, List.mem_cons_self f rest, by rw [h]; rfl⟩
      · exact Or.inl ⟨e, List.mem_cons_of_mem f h, rfl⟩
    · rw [upsertEdge, if_neg hf] at h
      rcases List.mem_cons.mp h with h | h
      · exact Or.inl ⟨f, List.mem_cons_self f rest, by rw [h]⟩
      · rcases ih h with ⟨x, hx, hxe⟩ | hr
        · exact Or.inl ⟨x, List.mem_cons_of_mem f hx, hxe⟩
        · exact Or.inr hr

theorem mem_foldl_upsert_triple (tkey : String × String × String → String)
    (raws : List Edge) :
    ∀ (acc : List Edge) (e : Edge), e ∈ raws.foldl (upsertEdge tkey) acc →
      (∃ x ∈ acc, edgeTriple x = edgeTriple e) ∨
        (∃ x ∈ raws, edgeTriple x = edgeTriple e) := by
  induction raws with
  | nil => intro acc e h; exact Or.inl ⟨e, by simpa using h, rfl⟩
  | cons r rest ih =>
    intro acc e h
    rw [List.foldl_cons] at h
    rcases ih _ e h with ⟨x, hx, hxe⟩ | ⟨x, hx, hxe⟩
    · rcases mem_upsert_triple tkey acc r x hx with ⟨y, hy, hye⟩ | hr
      · exact Or.inl ⟨y, hy, hye.trans hxe⟩
      · exact Or.inr ⟨r, List.mem_cons_self r rest, hr.trans hxe⟩
    · exact Or.inr ⟨x, List.mem_cons_of_mem r hx, hxe⟩

theorem mem_mergeEdges_triple (tkey : String × String × String → String)
    (raws : List Edge) (e : Edge) (h : e ∈ mergeEdges tkey raws) :
    ∃ x ∈ raws, edgeTriple x = edgeTriple e := by
  rcases mem_foldl_upsert_triple tkey raws [] e h with ⟨x, hx, _⟩ | hr
  · simp at hx
  · exact hr

theorem weightAtKey_eq_zero_of_not_mem (tkey : String × String × String → String)
    (l : List Edge) (κ : String) (h : κ ∉ l.map (edgeKey tkey)) :
    weightAtKey tkey l κ = 0 := by
  induction l with
  | nil => rfl
  | cons e rest ih =>
    have he : edgeKey tkey e ≠ κ := fun hc =>
      h (List.mem_map.mpr ⟨e, List.mem_cons_self e rest, hc⟩)
    have hrest : κ ∉ rest.map (edgeKey tkey) := fun hc => by
      rcases List.mem_map.mp hc with ⟨x, hx, hxe⟩
      exact h (List.mem_map.mpr ⟨x, List.mem_cons_of_mem e hx, hxe⟩)
    rw [weightAtKey_cons, if_neg he, ih hrest, zero_add]

theorem weightAtKey_self_of_nodup (tkey : String × String × String → String)
    (l : List Edge) (e : Edge) (hnd : (l.map (edgeKey tkey)).Nodup) (he : e ∈ l) :
    weightAtKey tkey l (edgeKey tkey e) = e.weight := by
  induction l with
  | nil => simp at he
  | cons f rest ih =>
    rw [List.map_cons, List.nodup_cons] at hnd
    rcases List.mem_cons.mp he with he | he
    · subst he
      rw [weightAtKey_cons, if_pos rfl,
        weightAtKey_eq_zero_of_not_mem tkey rest _ hnd.1, add_zero]
    · have hne : edgeKey tkey f ≠ edgeKey tkey e := fun hc =>
        hnd.1 (hc ▸ List.mem_map.mpr ⟨e, he, rfl⟩)
      rw [weightAtKey_cons, if_neg hne, ih hnd.2 he, zero_add]

/-! ### C6: edge merging by (source, target, type) -/

/-- C6 (counterexample): the CSV-path merge key joins the fields with `-`, so
two raw tuples with distinct `(source, target, type)` triples can collide on
the same key when a name contains `-`; the surviving edge then carries weight
2 although the weights of the raw tuples with its triple sum to 1, refuting
the claim that the surviving weight is always the per-triple sum. -/
theorem c6_counterexample :
    mergeEdgesCsv
        [{ source := "A-B", target := "C", type := "t", weight := 1 },
         { source := "A", target := "B-C", type := "t", weight := 1 }] =
      [{ source := "A-B", target := "C", type := "t", weight := 2 }] ∧
    weightAtTriple
        [{ source := "A-B", target := "C", type := "t", weight := 1 },
         { source := "A", target := "B-C", type := "t", weight := 1 }]
        ("A-B", "C", "t") = 1 ∧
    ¬ (∀ e ∈ mergeEdgesCsv
        [{ source := "A-B", target := "C", type := "t", weight := 1 },
         { source := "A", target := "B-C", type := "t", weight := 1 }],
        e.weight = weightAtTriple
          [{ source := "A-B", target := "C", type := "t", weight := 1 },
           { source := "A", target := "B-C", type := "t", weight := 1 }]
          (edgeTriple e)) := by
  have hmerge :
      mergeEdgesCsv
          [{ source := "A-B", target := "C", type := "t", weight := 1 },
           { source := "A", target := "B-C", type := "t", weight := 1 }] =
        [{ source := "A-B", target := "C", type := "t", weight := 2 }] := by
    simp +decide [mergeEdgesCsv, mergeEdges, upsertEdge, edgeKey, edgeTriple, csvKey]
    norm_num
  have hsum :
      weightAtTriple
          [{ source := "A-B", target := "C", type := "t", weight := 1 },
           { source := "A", target := "B-C", type := "t", weight := 1 }]
          ("A-B", "C", "t") = 1 := by
    simp +decide [weightAtTriple, edgeTriple]
  refine ⟨hmerge, hsum, fun h => ?_⟩
  have h2 := h { source := "A-B", target := "C", type := "t", weight := 2 }
    (by rw [hmerge]; exact List.mem_singleton.mpr rfl)
  rw [show edgeTriple { source := "A-B", target := "C", type := "t", weight := (2 : Rat) } =
    ("A-B", "C", "t") from rfl, hsum] at h2
  norm_num at h2

/-- C6 (amended): after normalization the edge set contains at most one entry
per `(source, target, type)` triple, and — provided the merge key encoding is
injective on the triples that occur, which holds whenever no occurring name
contains the separator — each surviving edge carries the sum of the weights of
the raw tuples with its triple; in particular two raw tuples
`(A, B, friendship, 1)` yield exactly one edge `(A, B, friendship)` of
weight 2. -/
theorem c6_edge_merge_amended (raws : List Edge)
    (hinj : ∀ r₁ ∈ raws, ∀ r₂ ∈ raws,
      edgeKey csvKey r₁ = edgeKey csvKey r₂ → edgeTriple r₁ = edgeTriple r₂) :
    ((mergeEdgesCsv raws).map edgeTriple).Nodup ∧
    (∀ e ∈ mergeEdgesCsv raws, e.weight = weightAtTriple raws (edgeTriple e)) ∧
    mergeEdgesCsv
        [{ source := "A", target := "B", type := "friendship", weight := 1 },
         { source := "A", target := "B", type := "friendship", weight := 1 }] =
      [{ source := "A", target := "B", type := "friendship", weight := 2 }] := by
  refine ⟨?_, ?_, by
    simp +decide [mergeEdgesCsv, mergeEdges, upsertEdge, edgeKey, edgeTriple, csvKey]
    norm_num⟩
  · have hkeys := keys_mergeEdges_nodup csvKey raws
    have hmap : (mergeEdgesCsv raws).map (edgeKey csvKey) =
        ((mergeEdgesCsv raws).map edgeTriple).map csvKey := by
      rw [List.map_map]; rfl
    rw [mergeEdgesCsv] at hmap ⊢
    exact List.Nodup.of_map csvKey (hmap ▸ hkeys)
  · intro e he
    have hkeys := keys_mergeEdges_nodup csvKey raws
    have h1 : weightAtKey csvKey (mergeEdges csvKey raws) (edgeKey csvKey e) = e.weight :=
      weightAtKey_self_of_nodup csvKey _ e hkeys he
    have h2 : weightAtKey csvKey raws (edgeKey csvKey e) = e.weight := by
      rw [← weightAtKey_mergeEdges csvKey raws (edgeKey csvKey e)]
      exact h1
    obtain ⟨r₀, hr₀, hr₀e⟩ := mem_mergeEdges_triple csvKey raws e he
    have hkey₀ : edgeKey csvKey r₀ = edgeKey csvKey e := by
      unfold edgeKey
      rw [hr₀e]
    have hfilter : raws.filter (fun x => edgeTriple x = edgeTriple e) =
        raws.filter (fun x => edgeKey csvKey x = edgeKey csvKey e) := by
      apply List.filter_congr
      intro x hx
      apply decide_eq_decide.mpr
      constructor
      · intro ht
        unfold edgeKey
        rw [ht]
      · intro hk
        exact (hinj x hx r₀ hr₀ (hk.trans hkey₀.symm)).trans hr₀e
    rw [← h2, weightAtTriple, hfilter, weightAtKey]

/-! ### C7: normalizer drop conditions and defaults -/

/-- C7: the normalizer drops a raw tuple exactly when its `from` or `to`
field is empty after trimming or both trim to the same name; a kept tuple
keeps a finite positive weight, defaults the weight to 1 otherwise (absent,
non-finite, zero or negative), and defaults the type to `"general"` when it
is empty after trimming. -/
theorem c7_normalizer_drop_and_defaults (r : RawRel) :
    (normalizeRel r = none ↔
      relSource r = "" ∨ relTarget r = "" ∨ relSource r = relTarget r) ∧
    (∀ e, normalizeRel r = some e →
      e.source = relSource r ∧ e.target = relTarget r ∧
      (∀ w, r.weightNum = some w → 0 < w → e.weight = w) ∧
      ((r.weightNum = none ∨ ∃ w, r.weightNum = some w ∧ w ≤ 0) → e.weight = 1) ∧
      (relTypeRaw r = "" → e.type = "general") ∧
      (relTypeRaw r ≠ "" → e.type = relTypeRaw r)) := by
  constructor
  · by_cases h : relSource r = "" ∨ relTarget r = "" ∨ relSource r = relTarget r
    · simp [normalizeRel, h]
    · simp [normalizeRel, h]
  · intro e he
    by_cases h : relSource r = "" ∨ relTarget r = "" ∨ relSource r = relTarget r
    · simp [normalizeRel, h] at he
    · simp only [normalizeRel, h, if_false, if_neg h, Option.some.injEq] at he
      subst he
      refine ⟨rfl, rfl, ?_, ?_, ?_, ?_⟩
      · intro w hw hwpos
        simp [hw, hwpos]
      · intro hcase
        rcases hcase with hnone | ⟨w, hw, hwle⟩
        · simp [hnone]
        · simp [hw, not_lt.mpr hwle]
      · intro ht
        simp [ht]
      · intro ht
        simp [ht]

/-! ### Graph-builder lemmas -/

theorem mem_dedupByIdAux_ids (l : List NodeIn) :
    ∀ (seen : List String) (a : String),
      a ∈ (dedupByIdAux seen l).map (fun n => n.id) ↔
        a ∉ seen ∧ a ∈ l.map (fun n => n.id) := by
  induction l with
  | nil => intro seen a; simp [dedupByIdAux]
  | cons n rest ih =>
    intro seen a
    by_cases h : seen.contains n.id
    · have hn : n.id ∈ seen := by simpa using h
      rw [dedupByIdAux, if_pos h, ih, List.map_cons]
      constructor
      · rintro ⟨h1, h2⟩
        exact ⟨h1, List.mem_cons_of_mem _ h2⟩
      · rintro ⟨h1, h2⟩
        rcases List.mem_cons.mp h2 with h2 | h2
        · exact absurd (h2 ▸ hn) h1
        · exact ⟨h1, h2⟩
    · have hn : n.id ∉ seen := by simpa using h
      rw [dedupByIdAux, if_neg h, List.map_cons, List.map_cons]
      constructor
      · intro hmem
        rcases List.mem_cons.mp hmem with rfl | hmem
        · exact ⟨hn, List.mem_cons_self _ _⟩
        · rw [ih] at hmem
          exact ⟨fun hc => hmem.1 (List.mem_cons_of_mem _ hc),
            List.mem_cons_of_mem _ hmem.2⟩
      · rintro ⟨h1, h2⟩
        rcases List.mem_cons.mp h2 with rfl | h2
        · exact List.mem_cons_self _ _
        · by_cases he : a = n.id
          · exact he ▸ List.mem_cons_self _ _
          · refine List.mem_cons_of_mem _ ?_
            rw [ih]
            exact ⟨by simp [List.mem_cons, he, h1], h2⟩

theorem nodup_dedupByIdAux_ids (l : List NodeIn) :
    ∀ seen : List String, ((dedupByIdAux seen l).map (fun n => n.id)).Nodup := by
  induction l with
  | nil => intro seen; simp [dedupByIdAux]
  | cons n rest ih =>
    intro seen
    by_cases h : seen.contains n.id
    · rw [dedupByIdAux, if_pos h]
      exact ih seen
    · rw [dedupByIdAux, if_neg h, List.map_cons, List.nodup_cons]
      refine ⟨fun hc => ?_, ih _⟩
      rw [mem_dedupByIdAux_ids] at hc
      exact hc.1 (List.mem_cons_self _ _)

/-! ### C9: node id uniqueness -/

/-- C9: the node list returned by `analyzeNetwork` never contains two records
with the same id, for every input node list (duplicate ids included): the
builder keeps only the first occurrence of each id. -/
theorem c9_node_ids_unique (o : MetricOutcomes) (nodes : List NodeIn) (edges : List Edge) :
    ((analyzeNetwork o nodes edges).nodes.map (fun n => n.id)).Nodup := by
  have h : (analyzeNetwork o nodes edges).nodes.map (fun n => n.id) =
      (dedupNodesById nodes).map (fun n => n.id) := by
    show ((dedupNodesById nodes).map (assembleNode o)).map (fun n => n.id) =
      (dedupNodesById nodes).map (fun n => n.id)
    rw [List.map_map]
    rfl
  rw [h]
  exact nodup_dedupByIdAux_ids nodes []

/-! ### C4: independence of the metric guards -/

/-- C4 (counterexample): in-degree and out-degree centrality share a single
try block, so when the in-degree computation fails the out-degree metric is
not computed even though its own computation would succeed: with an
out-degree function returning 5 the assembled record still carries
out-degree 0, refuting the claim that a failure in one metric never prevents
another metric from being computed. -/
theorem c4_counterexample :
    (MetricOutcomes.mk (.error ()) (.ok fun _ => 5) (.ok fun _ => 0) (.ok fun _ => 0)
        (.ok fun _ => 0) (.ok fun _ => 1)).outDeg = .ok (fun _ => (5 : Rat)) ∧
    ((analyzeNetwork
        (MetricOutcomes.mk (.error ()) (.ok fun _ => 5) (.ok fun _ => 0) (.ok fun _ => 0)
          (.ok fun _ => 0) (.ok fun _ => 1))
        [{ id := "A", name := "A", label := "A", group := 1 }] []).nodes.map
      (fun n => n.outDegree)) = [0] ∧
    (0 : Rat) ≠ 5 := by
  refine ⟨rfl, rfl, by norm_num⟩

/-- C4 (amended): the five centralities are guarded by four independent try
blocks and the community detection by a fifth; a failing block defaults its
metrics to 0 (community to 1) and a succeeding block contributes its computed
values, except that in-degree and out-degree share the first block, so a
failure of the in-degree computation also zeroes out-degree. -/
theorem c4_metric_blocks_amended (o : MetricOutcomes) (nodes : List NodeIn)
    (edges : List Edge) (nd : NodeOut)
    (hnd : nd ∈ (analyzeNetwork o nodes edges).nodes) :
    (o.inDeg = .error () → nd.inDegree = 0 ∧ nd.outDegree = 0) ∧
    (∀ f, o.inDeg = .ok f → nd.inDegree = f nd.id) ∧
    (o.outDeg = .error () → nd.outDegree = 0) ∧
    (∀ f g, o.inDeg = .ok f → o.outDeg = .ok g → nd.outDegree = g nd.id) ∧
    (o.betw = .error () → nd.betweenness = 0) ∧
    (∀ f, o.betw = .ok f → nd.betweenness = f nd.id) ∧
    (o.clos = .error () → nd.closeness = 0) ∧
    (∀ f, o.clos = .ok f → nd.closeness = f nd.id) ∧
    (o.eig = .error () → nd.eigenvector = 0) ∧
    (∀ f, o.eig = .ok f → nd.eigenvector = f nd.id) ∧
    (o.comm = .error () → nd.community = 1) ∧
    (∀ c, o.comm = .ok c → nd.community = jsOrOne (c nd.id)) := by
  rcases List.mem_map.mp hnd with ⟨n, hn, rfl⟩
  refine ⟨fun h => ⟨by simp [assembleNode, h], by simp [assembleNode, h]⟩,
    fun f hf => by simp [assembleNode, hf],
    fun h => by simp [assembleNode, h],
    fun f g hf hg => by simp [assembleNode, hf, hg],
    fun h => by simp [assembleNode, h],
    fun f hf => by simp [assembleNode, hf],
    fun h => by simp [assembleNode, h],
    fun f hf => by simp [assembleNode, hf],
    fun h => by simp [assembleNode, h],
    fun f hf => by simp [assembleNode, hf],
    fun h => by simp [assembleNode, h],
    fun c hc => by simp [assembleNode, hc]⟩

/-- Witness for C4 (amended) at a concrete input: with every block failing,
the single node gets all centralities 0 and community 1. -/
theorem c4_metric_blocks_amended_witness :
    (assembleNode
        (MetricOutcomes.mk (.error ()) (.error ()) (.error ()) (.error ()) (.error ())
          (.error ()))
        { id := "A", name := "A", label := "A", group := 1 }).inDegree = 0 ∧
    (assembleNode
        (MetricOutcomes.mk (.error ()) (.error ()) (.error ()) (.error ()) (.error ())
          (.error ()))
        { id := "A", name := "A", label := "A", group := 1 }).outDegree = 0 ∧
    (assembleNode
        (MetricOutcomes.mk (.error ()) (.error ()) (.error ()) (.error ()) (.error ())
          (.error ()))
        { id := "A", name := "A", label := "A", group := 1 }).betweenness = 0 ∧
    (assembleNode
        (MetricOutcomes.mk (.error ()) (.error ()) (.error ()) (.error ()) (.error ())
          (.error ()))
        { id := "A", name := "A", label := "A", group := 1 }).closeness = 0 ∧
    (assembleNode
        (MetricOutcomes.mk (.error ()) (.error ()) (.error ()) (.error ()) (.error ())
          (.error ()))
        { id := "A", name := "A", label := "A", group := 1 }).eigenvector = 0 ∧
    (assembleNode
        (MetricOutcomes.mk (.error ()) (.error ()) (.error ()) (.error ()) (.error ())
          (.error ()))
        { id := "A", name := "A", label := "A", group := 1 }).community = 1 := by
  have h := c4_metric_blocks_amended
    (MetricOutcomes.mk (.error ()) (.error ()) (.error ()) (.error ()) (.error ())
      (.error ()))
    [{ id := "A", name := "A", label := "A", group := 1 }] []
    (assembleNode
      (MetricOutcomes.mk (.error ()) (.error ()) (.error ()) (.error ()) (.error ())
        (.error ()))
      { id := "A", name := "A", label := "A", group := 1 })
    (List.mem_singleton.mpr rfl)
  exact ⟨(h.1 rfl).1, (h.1 rfl).2, h.2.2.2.2.1 rfl, h.2.2.2.2.2.2.1 rfl,
    h.2.2.2.2.2.2.2.2.1 rfl, h.2.2.2.2.2.2.2.2.2.2.1 rfl⟩

/-! ### C5: the returned edge list -/

/-- C5 (counterexample): `analyzeNetwork` returns the input edge list
untouched (line 112), not the builder-filtered edge set: an edge whose
target is not a node survives in the returned `edges` even though the
builder dropped it from the graph. -/
theorem c5_counterexample :
    (analyzeNetwork
        (MetricOutcomes.mk (.error ()) (.error ()) (.error ()) (.error ()) (.error ())
          (.error ()))
        [{ id := "A", name := "A", label := "A", group := 1 }]
        [{ source := "A", target := "B", type := "t", weight := 1 }]).edges =
      [{ source := "A", target := "B", type := "t", weight := 1 }] ∧
    (analyzeNetwork
        (MetricOutcomes.mk (.error ()) (.error ()) (.error ()) (.error ()) (.error ())
          (.error ()))
        [{ id := "A", name := "A", label := "A", group := 1 }]
        [{ source := "A", target := "B", type := "t", weight := 1 }]).graphEdges = [] ∧
    (analyzeNetwork
        (MetricOutcomes.mk (.error ()) (.error ()) (.error ()) (.error ()) (.error ())
          (.error ()))
        [{ id := "A", name := "A", label := "A", group := 1 }]
        [{ source := "A", target := "B", type := "t", weight := 1 }]).edges ≠
      (analyzeNetwork
        (MetricOutcomes.mk (.error ()) (.error ()) (.error ()) (.error ()) (.error ())
          (.error ()))
        [{ id := "A", name := "A", label := "A", group := 1 }]
        [{ source := "A", target := "B", type := "t", weight := 1 }]).graphEdges := by
  refine ⟨rfl, rfl, fun h => ?_⟩
  exact List.cons_ne_nil _ _ h

/-- C5 (amended): the returned `edges` field is the input edge list unchanged
(no builder-side filtering is applied to it); only the internal graph edge
set is filtered, and each of its edges has both endpoints among the graph
nodes and comes from the input list. -/
theorem c5_edges_passthrough_amended (o : MetricOutcomes) (nodes : List NodeIn)
    (edges : List Edge) :
    (analyzeNetwork o nodes edges).edges = edges ∧
    ∀ e ∈ (analyzeNetwork o nodes edges).graphEdges,
      e ∈ edges ∧
      (∃ n ∈ (analyzeNetwork o nodes edges).graphNodes, n.id = e.source) ∧
      (∃ n ∈ (analyzeNetwork o nodes edges).graphNodes, n.id = e.target) := by
  refine ⟨rfl, ?_⟩
  intro e he
  have he' : e ∈ List.filter
      (fun e => (dedupNodesById nodes).any (fun n => n.id = e.source) &&
        (dedupNodesById nodes).any (fun n => n.id = e.target)) edges := he
  rw [List.mem_filter] at he'
  obtain ⟨hmem, hcond⟩ := he'
  rw [Bool.and_eq_true] at hcond
  obtain ⟨h1, h2⟩ := hcond
  rw [List.any_eq_true] at h1 h2
  obtain ⟨n1, hn1, hid1⟩ := h1
  obtain ⟨n2, hn2, hid2⟩ := h2
  exact ⟨hmem, ⟨n1, hn1, of_decide_eq_true hid1⟩, ⟨n2, hn2, of_decide_eq_true hid2⟩⟩

/-- Witness for C5 (amended) at a concrete input: the edge A→B passes through
and the kept graph edge A→B has both endpoints among the graph nodes. -/
theorem c5_edges_passthrough_amended_witness :
    (analyzeNetwork
        (MetricOutcomes.mk (.error ()) (.error ()) (.error ()) (.error ()) (.error ())
          (.error ()))
        [{ id := "A", name := "A", label := "A", group := 1 },
         { id := "B", name := "B", label := "B", group := 1 }]
        [{ source := "A", target := "B", type := "t", weight := 1 }]).edges =
      [{ source := "A", target := "B", type := "t", weight := 1 }] ∧
    ({ source := "A", target := "B", type := "t", weight := 1 } : Edge) ∈
      ([{ source := "A", target := "B", type := "t", weight := 1 }] : List Edge) := by
  have h := c5_edges_passthrough_amended
    (MetricOutcomes.mk (.error ()) (.error ()) (.error ()) (.error ()) (.error ())
      (.error ()))
    [{ id := "A", name := "A", label := "A", group := 1 },
     { id := "B", name := "B", label := "B", group := 1 }]
    [{ source := "A", target := "B", type := "t", weight := 1 }]
  refine ⟨h.1, ?_⟩
  exact (h.2 { source := "A", target := "B", type := "t", weight := 1 }
    (List.mem_singleton.mpr rfl)).1

/-! ### C8: isolated students -/

/-- C8: in the assembled result every node has non-negative in- and
out-degree (given that the degree-centrality computations return
non-negative values, as degree counts do), and a node is in the
isolated-student set exactly when its assembled in-degree is 0, regardless
of its out-degree. -/
theorem c8_isolated_iff_indegree_zero (o : MetricOutcomes) (nodes : List NodeIn)
    (edges : List Edge)
    (hin : ∀ f, o.inDeg = .ok f → ∀ s, 0 ≤ f s)
    (hout : ∀ g, o.outDeg = .ok g → ∀ s, 0 ≤ g s) :
    ∀ nd ∈ (analyzeNetwork o nodes edges).nodes,
      0 ≤ nd.inDegree ∧ 0 ≤ nd.outDegree ∧
      (nd ∈ (analyzeNetwork o nodes edges).isolatedStudents ↔ nd.inDegree = 0) := by
  intro nd hnd
  rcases List.mem_map.mp hnd with ⟨n, hn, rfl⟩
  refine ⟨?_, ?_, ?_⟩
  · cases h : o.inDeg with
    | ok f => simpa [assembleNode, h] using hin f h n.id
    | error u => simp [assembleNode, h]
  · cases h1 : o.inDeg with
    | error u => simp [assembleNode, h1]
    | ok f =>
      cases h2 : o.outDeg with
      | error v => simp [assembleNode, h1, h2]
      | ok g => simpa [assembleNode, h1, h2] using hout g h2 n.id
  · have hiso : (analyzeNetwork o nodes edges).isolatedStudents =
        ((dedupNodesById nodes).map (assembleNode o)).filter
          (fun x => x.inDegree = 0) := rfl
    rw [hiso, List.mem_filter]
    simp only [decide_eq_true_eq]
    exact ⟨fun h => h.2, fun h => ⟨hnd, h⟩⟩

/-- Witness for C8 at a concrete input: node B of the graph A→B with
in-degree 1 and out-degree 0 is not isolated, while its in-degree and
out-degree are non-negative. -/
theorem c8_isolated_iff_indegree_zero_witness :
    0 ≤ (assembleNode
        (MetricOutcomes.mk (.ok fun s => if s = "B" then 1 else 0)
          (.ok fun s => if s = "A" then 1 else 0) (.error ()) (.error ()) (.error ())
          (.error ()))
        { id := "B", name := "B", label := "B", group := 1 }).inDegree ∧
    ((assembleNode
        (MetricOutcomes.mk (.ok fun s => if s = "B" then 1 else 0)
          (.ok fun s => if s = "A" then 1 else 0) (.error ()) (.error ()) (.error ())
          (.error ()))
        { id := "B", name := "B", label := "B", group := 1 }) ∈
      (analyzeNetwork
        (MetricOutcomes.mk (.ok fun s => if s = "B" then 1 else 0)
          (.ok fun s => if s = "A" then 1 else 0) (.error ()) (.error ()) (.error ())
          (.error ()))
        [{ id := "A", name := "A", label := "A", group := 1 },
         { id := "B", name := "B", label := "B", group := 1 }]
        [{ source := "A", target := "B", type := "t", weight := 1 }]).isolatedStudents ↔
      (assembleNode
        (MetricOutcomes.mk (.ok fun s => if s = "B" then 1 else 0)
          (.ok fun s => if s = "A" then 1 else 0) (.error ()) (.error ()) (.error ())
          (.error ()))
        { id := "B", name := "B", label := "B", group := 1 }).inDegree = 0) := by
  have h := c8_isolated_iff_indegree_zero
    (MetricOutcomes.mk (.ok fun s => if s = "B" then 1 else 0)
      (.ok fun s => if s = "A" then 1 else 0) (.error ()) (.error ()) (.error ())
      (.error ()))
    [{ id := "A", name := "A", label := "A", group := 1 },
     { id := "B", name := "B", label := "B", group := 1 }]
    [{ source := "A", target := "B", type := "t", weight := 1 }]
    (by rintro f ⟨rfl⟩ s; dsimp only; split <;> norm_num)
    (by rintro g ⟨rfl⟩ s; dsimp only; split <;> norm_num)
    (assembleNode
      (MetricOutcomes.mk (.ok fun s => if s = "B" then 1 else 0)
        (.ok fun s => if s = "A" then 1 else 0) (.error ()) (.error ()) (.error ())
        (.error ()))
      { id := "B", name := "B", label := "B", group := 1 })
    (by right; exact List.mem_singleton.mpr rfl)
  exact ⟨h.1, h.2.2⟩

/-! ### C10: the community label mapping -/

theorem jsOrOne_pos (c : Nat) : 1 ≤ jsOrOne c := by
  rw [jsOrOne]
  split <;> omega

/-- C10: the assembler maps a detected community label `c` to `c || 1`, so
label 0 becomes 1 — the same output label as detected community 1 — making
the label map non-injective while every output label stays positive. -/
theorem c10_community_label_mapping (mIn mOut mB mC mE : Except Unit (String → Rat))
    (cf : String → Nat) (nodes : List NodeIn) (edges : List Edge) :
    (∀ nd ∈ (analyzeNetwork (MetricOutcomes.mk mIn mOut mB mC mE (.ok cf))
        nodes edges).nodes,
      nd.community = jsOrOne (cf nd.id) ∧ 1 ≤ nd.community) ∧
    jsOrOne 0 = 1 ∧ jsOrOne 1 = 1 ∧
    (∃ a b : Nat, a ≠ b ∧ jsOrOne a = jsOrOne b) ∧
    ¬ Function.Injective jsOrOne := by
  refine ⟨?_, rfl, rfl, ⟨0, 1, by norm_num, rfl⟩, ?_⟩
  · intro nd hnd
    rcases List.mem_map.mp hnd with ⟨n, hn, rfl⟩
    exact ⟨by simp [assembleNode], jsOrOne_pos _⟩
  · intro hinj
    have h01 : (0 : Nat) = 1 := hinj (show jsOrOne 0 = jsOrOne 1 from rfl)
    exact absurd h01 (by norm_num)

/-- Witness for C10 at a concrete input: a node detected in community 0 gets
output label 1, like a node detected in community 1. -/
theorem c10_community_label_mapping_witness :
    (assembleNode
        (MetricOutcomes.mk (.error ()) (.error ()) (.error ()) (.error ()) (.error ())
          (.ok fun s => if s = "A" then 0 else 1))
        { id := "A", name := "A", label := "A", group := 1 }).community = 1 ∧
    jsOrOne 0 = 1 ∧ jsOrOne 1 = 1 := by
  have h := c10_community_label_mapping (.error ()) (.error ()) (.error ()) (.error ())
    (.error ()) (fun s => if s = "A" then 0 else 1)
    [{ id := "A", name := "A", label := "A", group := 1 }] []
  refine ⟨?_, h.2.1, h.2.2.1⟩
  have hmem := h.1 (assembleNode
      (MetricOutcomes.mk (.error ()) (.error ()) (.error ()) (.error ()) (.error ())
        (.ok fun s => if s = "A" then 0 else 1))
      { id := "A", name := "A", label := "A", group := 1 })
    (List.mem_singleton.mpr rfl)
  rw [hmem.1]
  rfl

/-! ### C3: the graph handed to louvain -/

/-- C3 (counterexample): the community detector passes `graph.copy()` — a
same-type copy of the directed multigraph — to louvain, so with edges A→B and
B→A of weight 1 the graph handed over still contains two distinct directed
edges, whereas the claimed undirected projection would contain a single
aggregated edge {A,B} of weight 2. -/
theorem c3_counterexample :
    (louvainInput
        [{ id := "A", name := "A", label := "A", group := 1 },
         { id := "B", name := "B", label := "B", group := 1 }]
        [{ source := "A", target := "B", type := "friendship", weight := 1 },
         { source := "B", target := "A", type := "friendship", weight := 1 }]).directed =
      true ∧
    (louvainInput
        [{ id := "A", name := "A", label := "A", group := 1 },
         { id := "B", name := "B", label := "B", group := 1 }]
        [{ source := "A", target := "B", type := "friendship", weight := 1 },
         { source := "B", target := "A", type := "friendship", weight := 1 }]).multi =
      true ∧
    (louvainInput
        [{ id := "A", name := "A", label := "A", group := 1 },
         { id := "B", name := "B", label := "B", group := 1 }]
        [{ source := "A", target := "B", type := "friendship", weight := 1 },
         { source := "B", target := "A", type := "friendship", weight := 1 }]).edges =
      [{ source := "A", target := "B", type := "friendship", weight := 1 },
       { source := "B", target := "A", type := "friendship", weight := 1 }] ∧
    undirectedProjectionSpec (louvainInput
        [{ id := "A", name := "A", label := "A", group := 1 },
         { id := "B", name := "B", label := "B", group := 1 }]
        [{ source := "A", target := "B", type := "friendship", weight := 1 },
         { source := "B", target := "A", type := "friendship", weight := 1 }]) =
      [("A", "B", 2)] ∧
    (louvainInput
        [{ id := "A", name := "A", label := "A", group := 1 },
         { id := "B", name := "B", label := "B", group := 1 }]
        [{ source := "A", target := "B", type := "friendship", weight := 1 },
         { source := "B", target := "A", type := "friendship", weight := 1 }]).edges.length ≠
      (undirectedProjectionSpec (louvainInput
        [{ id := "A", name := "A", label := "A", group := 1 },
         { id := "B", name := "B", label := "B", group := 1 }]
        [{ source := "A", target := "B", type := "friendship", weight := 1 },
         { source := "B", target := "A", type := "friendship", weight := 1 }])).length := by
  refine ⟨rfl, rfl, rfl, ?_, ?_⟩
  · simp +decide [undirectedProjectionSpec, upsertPair, pairOf, louvainInput, copyGraph,
      buildGraph, filterEdges, dedupNodesById, dedupByIdAux]
    norm_num
  · have hproj : undirectedProjectionSpec (louvainInput
        [{ id := "A", name := "A", label := "A", group := 1 },
         { id := "B", name := "B", label := "B", group := 1 }]
        [{ source := "A", target := "B", type := "friendship", weight := 1 },
         { source := "B", target := "A", type := "friendship", weight := 1 }]) =
        [("A", "B", 2)] := by
      simp +decide [undirectedProjectionSpec, upsertPair, pairOf, louvainInput, copyGraph,
        buildGraph, filterEdges, dedupNodesById, dedupByIdAux]
      norm_num
    rw [hproj]
    decide

/-- C3 (amended): the repository performs no undirected aggregation itself:
louvain receives the directed multigraph copy, in which the two directions
between a pair stay two distinct weighted edges, whereas the specification's
undirected projection would merge them into one edge carrying the summed
weight. -/
theorem c3_louvain_input_amended (w₁ w₂ : Rat) :
    louvainInput
        [{ id := "A", name := "A", label := "A", group := 1 },
         { id := "B", name := "B", label := "B", group := 1 }]
        [{ source := "A", target := "B", type := "friendship", weight := w₁ },
         { source := "B", target := "A", type := "friendship", weight := w₂ }] =
      buildGraph
        [{ id := "A", name := "A", label := "A", group := 1 },
         { id := "B", name := "B", label := "B", group := 1 }]
        [{ source := "A", target := "B", type := "friendship", weight := w₁ },
         { source := "B", target := "A", type := "friendship", weight := w₂ }] ∧
    (louvainInput
        [{ id := "A", name := "A", label := "A", group := 1 },
         { id := "B", name := "B", label := "B", group := 1 }]
        [{ source := "A", target := "B", type := "friendship", weight := w₁ },
         { source := "B", target := "A", type := "friendship", weight := w₂ }]).directed =
      true ∧
    (louvainInput
        [{ id := "A", name := "A", label := "A", group := 1 },
         { id := "B", name := "B", label := "B", group := 1 }]
        [{ source := "A", target := "B", type := "friendship", weight := w₁ },
         { source := "B", target := "A", type := "friendship", weight := w₂ }]).multi =
      true ∧
    (louvainInput
        [{ id := "A", name := "A", label := "A", group := 1 },
         { id := "B", name := "B", label := "B", group := 1 }]
        [{ source := "A", target := "B", type := "friendship", weight := w₁ },
         { source := "B", target := "A", type := "friendship", weight := w₂ }]).edges =
      [{ source := "A", target := "B", type := "friendship", weight := w₁ },
       { source := "B", target := "A", type := "friendship", weight := w₂ }] ∧
    undirectedProjectionSpec (louvainInput
        [{ id := "A", name := "A", label := "A", group := 1 },
         { id := "B", name := "B", label := "B", group := 1 }]
        [{ source := "A", target := "B", type := "friendship", weight := w₁ },
         { source := "B", target := "A", type := "friendship", weight := w₂ }]) =
      [("A", "B", w₁ + w₂)] := by
  refine ⟨rfl, rfl, rfl, rfl, ?_⟩
  simp +decide [undirectedProjectionSpec, upsertPair, pairOf, louvainInput, copyGraph,
    buildGraph, filterEdges, dedupNodesById, dedupByIdAux]

/-- Witness for C6 (amended) at a concrete input: the two identical
friendship tuples merge into a single edge of weight 2 with pairwise
distinct triples. -/
theorem c6_edge_merge_amended_witness :
    ((mergeEdgesCsv
        [{ source := "A", target := "B", type := "friendship", weight := 1 },
         { source := "A", target := "B", type := "friendship", weight := 1 }]).map
      edgeTriple).Nodup ∧
    mergeEdgesCsv
        [{ source := "A", target := "B", type := "friendship", weight := 1 },
         { source := "A", target := "B", type := "friendship", weight := 1 }] =
      [{ source := "A", target := "B", type := "friendship", weight := 2 }] := by
  have h := c6_edge_merge_amended
    [{ source := "A", target := "B", type := "friendship", weight := 1 },
     { source := "A", target := "B", type := "friendship", weight := 1 }]
    (by decide)
  exact ⟨h.1, h.2.2⟩

/-- Witness for C7 at concrete inputs: a tuple whose endpoints trim to the
same name is dropped; a kept tuple with absent type and negative weight gets
type `"general"` and weight 1. -/
theorem c7_normalizer_drop_and_defaults_witness :
    normalizeRel { fromName := some "Bob ", toName := some " Bob",
                   typeName := some "t", weightNum := none } = none ∧
    normalizeRel { fromName := some " Alice ", toName := some "Bob",
                   typeName := none, weightNum := some (-3) } =
      some { source := "Alice", target := "Bob", type := "general", weight := 1 } ∧
    ({ source := "Alice", target := "Bob", type := "general", weight := 1 } : Edge).weight =
      1 ∧
    ({ source := "Alice", target := "Bob", type := "general", weight := 1 } : Edge).type =
      "general" := by
  have h₁ := c7_normalizer_drop_and_defaults
    { fromName := some "Bob ", toName := some " Bob",
      typeName := some "t", weightNum := none }
  have h₂ := c7_normalizer_drop_and_defaults
    { fromName := some " Alice ", toName := some "Bob",
      typeName := none, weightNum := some (-3) }
  have hsome : normalizeRel
      { fromName := some " Alice ", toName := some "Bob",
        typeName := none, weightNum := some (-3) } =
      some { source := "Alice", target := "Bob", type := "general", weight := 1 } := by
    decide
  refine ⟨h₁.1.mpr (Or.inr (Or.inr (by decide))), hsome, ?_, ?_⟩
  · exact (h₂.2 _ hsome).2.2.2.1 (Or.inr ⟨-3, rfl, by norm_num⟩)
  · exact (h₂.2 _ hsome).2.2.2.2.2 (by decide)

/-! ### Identity-resolver lemmas -/

theorem resolveStep_no_clash (prev : List NodeIn) (st : ResolveState) (name : String)
    (h : candFn prev name ∉ st.usedIds) :
    resolveStep prev st name =
      { usedIds := st.usedIds ++ [candFn prev name]
        nameToId := st.nameToId ++ [(name, candFn prev name)] } := by
  have hc : ¬ (st.usedIds.contains
      ((lookupPrev prev (normalizeStudentNameKey name)).getD
        (buildStableStudentId name)) = true) := by
    simpa [candFn] using h
  simp only [resolveStep]
  rw [if_neg hc]
  rfl

theorem resolve_foldl_no_clash (prev : List NodeIn) :
    ∀ (names : List String) (st : ResolveState),
      (names.map (candFn prev)).Nodup →
      (∀ n ∈ names, candFn prev n ∉ st.usedIds) →
      names.foldl (resolveStep prev) st =
        { usedIds := st.usedIds ++ names.map (candFn prev)
          nameToId := st.nameToId ++ names.map (fun n => (n, candFn prev n)) } := by
  intro names
  induction names with
  | nil => intro st _ _; simp
  | cons n rest ih =>
    intro st hnd hfree
    rw [List.map_cons, List.nodup_cons] at hnd
    have hfree' : ∀ m ∈ rest, candFn prev m ∉ st.usedIds ++ [candFn prev n] := by
      intro m hm hmem
      rcases List.mem_append.mp hmem with hmem | hmem
      · exact hfree m (List.mem_cons_of_mem n hm) hmem
      · have heq : candFn prev m = candFn prev n := by simpa using hmem
        exact hnd.1 (heq ▸ List.mem_map.mpr ⟨m, hm, rfl⟩)
    rw [List.foldl_cons, resolveStep_no_clash prev st n (hfree n (List.mem_cons_self n rest)),
      ih _ hnd.2 hfree']
    simp

theorem find_fst_map (l : List String) (f : String → String) (n : String) (hm : n ∈ l) :
    ((l.map (fun x => (x, f x))).find? (fun p => p.1 = n)).map (fun p => p.2) =
      some (f n) := by
  induction l with
  | nil => simp at hm
  | cons a rest ih =>
    by_cases ha : a = n
    · subst ha
      simp [List.find?]
    · rcases List.mem_cons.mp hm with rfl | hm
      · exact absurd rfl ha
      · rw [List.map_cons, List.find?_cons_of_neg _ (by simpa using ha)]
        exact ih hm

theorem resolvedId_map (names : List String) (f : String → String) (n : String)
    (hm : n ∈ names) :
    resolvedId (names.map (fun x => (x, f x))) n = some (f n) := by
  rw [resolvedId, ← List.map_reverse]
  exact find_fst_map names.reverse f n (List.mem_reverse.mpr hm)

theorem resolve_first_call (names : List String)
    (h : (names.map buildStableStudentId).Nodup) :
    resolveStudentIds names [] = names.map (fun n => (n, buildStableStudentId n)) := by
  have hcand : candFn ([] : List NodeIn) = buildStableStudentId := rfl
  rw [resolveStudentIds,
    resolve_foldl_no_clash [] names ⟨[], []⟩ (by rw [hcand]; exact h)
      (by intro m _ hy; simp at hy)]
  simp [hcand]

theorem nodesFromResolution_first (names : List String)
    (h : (names.map buildStableStudentId).Nodup) :
    nodesFromResolution names (resolveStudentIds names []) =
      names.map (fun n =>
        { id := buildStableStudentId n, name := n, label := n, group := 1 }) := by
  rw [nodesFromResolution, resolve_first_call names h]
  apply List.map_congr_left
  intro n hn
  rw [resolvedId_map names buildStableStudentId n hn]
  rfl

theorem lookupPrev_mapped (names : List String) (κ : String) :
    lookupPrev (names.map (fun n =>
        { id := buildStableStudentId n, name := n, label := n, group := 1 })) κ =
      (names.reverse.find? (fun n => normalizeStudentNameKey n = κ)).map
        buildStableStudentId := by
  rw [lookupPrev, ← List.map_reverse, List.find?_map, Option.map_map]
  rfl

theorem candFn_known (names : List String)
    (hkeys : (names.map normalizeStudentNameKey).Nodup)
    (x : String) (hx : x ∈ names) (m : String)
    (hkey : normalizeStudentNameKey x = normalizeStudentNameKey m) :
    candFn (names.map (fun n =>
        { id := buildStableStudentId n, name := n, label := n, group := 1 })) m =
      buildStableStudentId x := by
  rw [candFn, lookupPrev_mapped]
  cases hfind : names.reverse.find?
      (fun n => normalizeStudentNameKey n = normalizeStudentNameKey m) with
  | none =>
    exfalso
    rw [List.find?_eq_none] at hfind
    exact hfind x (List.mem_reverse.mpr hx) (by simpa using hkey)
  | some y =>
    have hy : y ∈ names := List.mem_reverse.mp (List.mem_of_find?_eq_some hfind)
    have hyk : normalizeStudentNameKey y = normalizeStudentNameKey m := by
      simpa using List.find?_some hfind
    have hyx : y = x :=
      List.inj_on_of_nodup_map hkeys hy hx (hyk.trans hkey.symm)
    rw [hyx]
    rfl

/-! ### C1: id stability across resolution calls -/

/-- C1 (counterexample): when the second resolution call's batch contains two
casing variants of the same normalized key, the variant processed first takes
the reused prior id and the canonical name itself is pushed to a `_2`-suffixed
id, so resolving the same canonical name in two successive calls — the second
given the first call's node list as previous — does not always yield the same
id. -/
theorem c1_counterexample :
    resolvedId (resolveStudentIds ["Kim Min Jun"] []) "Kim Min Jun" ≠
      resolvedId (resolveStudentIds ["kim min jun", "Kim Min Jun"]
        (nodesFromResolution ["Kim Min Jun"] (resolveStudentIds ["Kim Min Jun"] [])))
        "Kim Min Jun" ∧
    (resolvedId (resolveStudentIds ["Kim Min Jun"] []) "Kim Min Jun").isSome = true ∧
    (resolvedId (resolveStudentIds ["kim min jun", "Kim Min Jun"]
        (nodesFromResolution ["Kim Min Jun"] (resolveStudentIds ["Kim Min Jun"] [])))
        "Kim Min Jun").isSome = true := by
  decide

/-- C1 (amended): resolving a canonical name in two successive resolution
calls — the second given the first call's node list as previous — yields the
same id both times, and a name whose normalized (trimmed,
whitespace-collapsed, case-folded) key matches a previously known name reuses
that name's id, provided each call's batch contains at most one name per
normalized key, every key of the second batch was known to the first call,
and the first call's hash-derived ids do not collide. -/
theorem c1_id_stability_amended (names₁ names₂ : List String)
    (h₁keys : (names₁.map normalizeStudentNameKey).Nodup)
    (h₁ids : (names₁.map buildStableStudentId).Nodup)
    (h₂keys : (names₂.map normalizeStudentNameKey).Nodup)
    (hknown : ∀ n ∈ names₂, ∃ x ∈ names₁,
      normalizeStudentNameKey x = normalizeStudentNameKey n) :
    ∀ n' ∈ names₁, ∀ n ∈ names₂,
      normalizeStudentNameKey n' = normalizeStudentNameKey n →
      resolvedId (resolveStudentIds names₁ []) n' = some (buildStableStudentId n') ∧
      resolvedId (resolveStudentIds names₂
          (nodesFromResolution names₁ (resolveStudentIds names₁ []))) n =
        some (buildStableStudentId n') := by
  intro n' hn' n hn hkey
  constructor
  · rw [resolve_first_call names₁ h₁ids]
    exact resolvedId_map names₁ buildStableStudentId n' hn'
  · rw [nodesFromResolution_first names₁ h₁ids]
    have hnodup2 : (names₂.map (candFn (names₁.map (fun x =>
        { id := buildStableStudentId x, name := x, label := x, group := 1 })))).Nodup := by
      refine List.Nodup.map_on ?_ (List.Nodup.of_map _ h₂keys)
      intro a ha b hb hab
      obtain ⟨xa, hxa, hka⟩ := hknown a ha
      obtain ⟨xb, hxb, hkb⟩ := hknown b hb
      rw [candFn_known names₁ h₁keys xa hxa a hka,
        candFn_known names₁ h₁keys xb hxb b hkb] at hab
      have hxab : xa = xb := List.inj_on_of_nodup_map h₁ids hxa hxb hab
      have hkab : normalizeStudentNameKey a = normalizeStudentNameKey b := by
        rw [← hka, hxab, hkb]
      exact List.inj_on_of_nodup_map h₂keys ha hb hkab
    have hm2 : resolveStudentIds names₂ (names₁.map (fun x =>
        { id := buildStableStudentId x, name := x, label := x, group := 1 })) =
        names₂.map (fun m => (m, candFn (names₁.map (fun x =>
          { id := buildStableStudentId x, name := x, label := x, group := 1 })) m)) := by
      rw [resolveStudentIds,
        resolve_foldl_no_clash _ names₂ ⟨[], []⟩ hnodup2 (by intro m _ hy; simp at hy)]
      simp
    rw [hm2, resolvedId_map names₂ _ n hn, candFn_known names₁ h₁keys n' hn' n hkey]

/-- Witness for C1 (amended) at concrete inputs: `Bob` keeps its hash id
across both calls, and the casing variant `alice` of the second call reuses
the id of `Alice` from the first call. -/
theorem c1_id_stability_amended_witness :
    resolvedId (resolveStudentIds ["Alice", "Bob"] []) "Bob" =
      some (buildStableStudentId "Bob") ∧
    resolvedId (resolveStudentIds ["alice", "Bob"]
        (nodesFromResolution ["Alice", "Bob"] (resolveStudentIds ["Alice", "Bob"] [])))
        "Bob" =
      some (buildStableStudentId "Bob") ∧
    resolvedId (resolveStudentIds ["alice", "Bob"]
        (nodesFromResolution ["Alice", "Bob"] (resolveStudentIds ["Alice", "Bob"] [])))
        "alice" =
      some (buildStableStudentId "Alice") := by
  have hb := c1_id_stability_amended ["Alice", "Bob"] ["alice", "Bob"] (by decide)
    (by decide) (by decide) (by decide) "Bob" (by decide) "Bob" (by decide) (by decide)
  have ha := c1_id_stability_amended ["Alice", "Bob"] ["alice", "Bob"] (by decide)
    (by decide) (by decide) (by decide) "Alice" (by decide) "alice" (by decide) (by decide)
  exact ⟨hb.1, hb.2, ha.2⟩

/-! ### C2: determinism of the community-detection stage -/

theorem sortStrings_perm_eq {l₁ l₂ : List String} (h : l₁.Perm l₂) :
    sortStrings l₁ = sortStrings l₂ := by
  apply List.eq_of_perm_of_sorted (r := (· ≤ · : String → String → Prop))
    (((List.perm_insertionSort _ l₁).trans h).trans (List.perm_insertionSort _ l₂).symm)
  · exact List.sorted_insertionSort _ l₁
  · exact List.sorted_insertionSort _ l₂

theorem sortStrings_eq_of_mem_nodup {l₁ l₂ : List String} (h₁ : l₁.Nodup) (h₂ : l₂.Nodup)
    (h : ∀ a, a ∈ l₁ ↔ a ∈ l₂) : sortStrings l₁ = sortStrings l₂ :=
  sortStrings_perm_eq ((List.perm_ext_iff_of_nodup h₁ h₂).mpr h)

theorem bool_eq_of_iff {b c : Bool} (h : b = true ↔ c = true) : b = c := by
  cases b <;> cases c <;> simp_all

theorem any_id_iff (l : List NodeIn) (s : String) :
    l.any (fun n => n.id = s) = true ↔ s ∈ l.map (fun n => n.id) := by
  rw [List.any_eq_true]
  constructor
  · rintro ⟨n, hn, hs⟩
    exact List.mem_map.mpr ⟨n, hn, of_decide_eq_true hs⟩
  · intro hmem
    rcases List.mem_map.mp hmem with ⟨n, hn, hs⟩
    exact ⟨n, hn, decide_eq_true hs⟩

theorem dedup_ids_mem_iff {nodes₁ nodes₂ : List NodeIn} (hn : nodes₁.Perm nodes₂) :
    ∀ a, a ∈ (dedupNodesById nodes₁).map (fun n => n.id) ↔
      a ∈ (dedupNodesById nodes₂).map (fun n => n.id) := by
  intro a
  rw [dedupNodesById, dedupNodesById, mem_dedupByIdAux_ids, mem_dedupByIdAux_ids]
  exact and_congr_right fun _ => (hn.map (fun n => n.id)).mem_iff

theorem filterEdges_perm {nodes₁ nodes₂ : List NodeIn} {edges₁ edges₂ : List Edge}
    (hn : nodes₁.Perm nodes₂) (he : edges₁.Perm edges₂) :
    (filterEdges (dedupNodesById nodes₁) edges₁).Perm
      (filterEdges (dedupNodesById nodes₂) edges₂) := by
  have hpred : ∀ e : Edge,
      ((dedupNodesById nodes₁).any (fun n => n.id = e.source) &&
        (dedupNodesById nodes₁).any (fun n => n.id = e.target)) =
      ((dedupNodesById nodes₂).any (fun n => n.id = e.source) &&
        (dedupNodesById nodes₂).any (fun n => n.id = e.target)) := by
    intro e
    have h1 : (dedupNodesById nodes₁).any (fun n => n.id = e.source) =
        (dedupNodesById nodes₂).any (fun n => n.id = e.source) :=
      bool_eq_of_iff ((any_id_iff _ _).trans
        ((dedup_ids_mem_iff hn e.source).trans (any_id_iff _ _).symm))
    have h2 : (dedupNodesById nodes₁).any (fun n => n.id = e.target) =
        (dedupNodesById nodes₂).any (fun n => n.id = e.target) :=
      bool_eq_of_iff ((any_id_iff _ _).trans
        ((dedup_ids_mem_iff hn e.target).trans (any_id_iff _ _).symm))
    rw [h1, h2]
  have hcongr : edges₁.filter (fun e =>
        (dedupNodesById nodes₁).any (fun n => n.id = e.source) &&
          (dedupNodesById nodes₁).any (fun n => n.id = e.target)) =
      edges₁.filter (fun e =>
        (dedupNodesById nodes₂).any (fun n => n.id = e.source) &&
          (dedupNodesById nodes₂).any (fun n => n.id = e.target)) :=
    List.filter_congr (fun e _ => hpred e)
  rw [filterEdges, filterEdges, hcongr]
  exact he.filter _

theorem seedSource_perm {nodes₁ nodes₂ : List NodeIn} {edges₁ edges₂ : List Edge}
    (hn : nodes₁.Perm nodes₂) (he : edges₁.Perm edges₂) :
    seedSource nodes₁ edges₁ = seedSource nodes₂ edges₂ := by
  rw [seedSource, seedSource, sortStrings_perm_eq (hn.map (fun n => n.id)),
    sortStrings_perm_eq (he.map serializeEdge)]

theorem louvainContent_perm {nodes₁ nodes₂ : List NodeIn} {edges₁ edges₂ : List Edge}
    (hn : nodes₁.Perm nodes₂) (he : edges₁.Perm edges₂) :
    louvainContent nodes₁ edges₁ = louvainContent nodes₂ edges₂ := by
  rw [louvainContent, louvainContent]
  refine Prod.ext ?_ ?_
  · exact sortStrings_eq_of_mem_nodup (nodup_dedupByIdAux_ids nodes₁ [])
      (nodup_dedupByIdAux_ids nodes₂ []) (dedup_ids_mem_iff hn)
  · exact sortStrings_perm_eq ((filterEdges_perm hn he).map serializeEdge)

/-- C2: for a fixed node set and edge list (same content, any input
ordering), the community-detection stage produces the identical partition:
the rng seed source is built from the sorted node ids and the sorted
edge serializations (so it is permutation-invariant), the seeded generator is
a pure function of that string, and the louvain implementation — modelled,
per the spec's determinism contract, as an arbitrary function of the graph's
order-canonicalized content and the rng state — therefore receives identical
arguments. -/
theorem c2_community_determinism
    (impl : List String × List String → Nat → String → Nat)
    (nodes₁ nodes₂ : List NodeIn) (edges₁ edges₂ : List Edge)
    (hn : nodes₁.Perm nodes₂) (he : edges₁.Perm edges₂) :
    communityStage impl nodes₁ edges₁ = communityStage impl nodes₂ edges₂ := by
  rw [communityStage, communityStage, louvainContent_perm hn he, seedSource_perm hn he]

/-- Witness for C2 at a concrete input: reordering the two nodes leaves the
community stage unchanged. -/
theorem c2_community_determinism_witness :
    communityStage (fun _ seed _ => seed % 2)
      [{ id := "A", name := "A", label := "A", group := 1 },
       { id := "B", name := "B", label := "B", group := 1 }]
      [{ source := "A", target := "B", type := "friendship", weight := 1 }] =
    communityStage (fun _ seed _ => seed % 2)
      [{ id := "B", name := "B", label := "B", group := 1 },
       { id := "A", name := "A", label := "A", group := 1 }]
      [{ source := "A", target := "B", type := "friendship", weight := 1 }] :=
  c2_community_determinism (fun _ seed _ => seed % 2) _ _ _ _
    (List.Perm.swap _ _ _) (List.Perm.refl _)

end ClassSNA
